import Mathlib

/-!
Verification development for `secretflow/device/device/spu.py`.

The Python source is shallowly embedded: each relevant method of
`SPURuntime` / `SPU` / `SPUObject` becomes an executable Lean definition
over explicit state, and the claims of the specification are settled as
theorems about those definitions.
-/

namespace SpuModel

/-! ## Decimal rendering of share sequence ids

`SPURuntime.get_new_share_name` returns `f"{self.share_seq_id}"`, the decimal
string of the counter.  Lean's `Nat.repr` is the same decimal rendering; the
development below proves it injective, which underlies uniqueness of share
names. -/

/-- Numeric value of a decimal digit character (`'0'` ↦ 0, …, `'9'` ↦ 9). -/
def charVal (c : Char) : Nat := c.toNat - 48

/-- Parse a decimal digit string back to a number (left fold). -/
def parseDigits (cs : List Char) : Nat := cs.foldl (fun a c => a * 10 + charVal c) 0

/-! ## Nested trees (the jax pytree structure)

`jax.tree_util.tree_flatten` / `tree_unflatten` over arbitrary nests are
modelled by an explicit tree of leaves and ordered children, with
order-preserving flatten and shape-directed unflatten. -/

/-- A nested Python value: a leaf or an ordered container of subtrees. -/
inductive Tree (α : Type) where
  | leaf : α → Tree α
  | node : List (Tree α) → Tree α

mutual

/-- `jax.tree_util.tree_flatten`, leaves in left-to-right order. -/
def flattenT : Tree α → List α
  | .leaf a => [a]
  | .node cs => flattenL cs

def flattenL : List (Tree α) → List α
  | [] => []
  | t :: ts => flattenT t ++ flattenL ts

end

mutual

/-- The treedef: the tree with its leaf payloads erased. -/
def shapeT : Tree α → Tree Unit
  | .leaf _ => .leaf ()
  | .node cs => .node (shapeL cs)

def shapeL : List (Tree α) → List (Tree Unit)
  | [] => []
  | t :: ts => shapeT t :: shapeL ts

end

/-- Number of leaves of a tree. -/
def leafCountT (t : Tree α) : Nat := (flattenT t).length

mutual

/-- Shape-directed unflatten: consume leaves from `bs` following shape `s`,
returning the rebuilt tree and the unconsumed suffix.  `none` when `bs` runs
out (jax raises on a leaf-count mismatch). -/
def unflT : Tree Unit → List β → Option (Tree β × List β)
  | .leaf _, [] => none
  | .leaf _, b :: bs => some (.leaf b, bs)
  | .node cs, bs =>
    match unflL cs bs with
    | none => none
    | some (ts, rest) => some (.node ts, rest)

def unflL : List (Tree Unit) → List β → Option (List (Tree β) × List β)
  | [], bs => some ([], bs)
  | s :: ss, bs =>
    match unflT s bs with
    | none => none
    | some (t, bs1) =>
      match unflL ss bs1 with
      | none => none
      | some (ts, bs2) => some (t :: ts, bs2)

end

/-- `jax.tree_util.tree_unflatten treedef leaves`: succeeds only when the
leaf list is consumed exactly. -/
def unflattenT (s : Tree Unit) (bs : List β) : Option (Tree β) :=
  match unflT s bs with
  | some (t, []) => some t
  | _ => none

/-! ## Share store, share names and latin1 encoding

State of one `SPURuntime`: the share store of `spu.Runtime`
(`set_var`/`get_var` keyed by string names) plus the `share_seq_id` counter. -/

/-- A byte of a raw share (share bytes may contain arbitrary octets). -/
abbrev SpuByte := Fin 256

/-- The variable store of `spu.Runtime`: string-keyed raw share bytes. -/
def VarStore := String → Option (List SpuByte)

/-- `runtime.get_var name` (raises, i.e. `none`, on an unknown name). -/
def getVar (store : VarStore) (name : String) : Option (List SpuByte) := store name

/-- `runtime.set_var name v`: overwrite-or-insert. -/
def setVar (store : VarStore) (name : String) (v : List SpuByte) : VarStore :=
  fun n => if n = name then some v else store n

/-- State of one `SPURuntime` instance. -/
structure RTState where
  store : VarStore
  share_seq_id : Nat

/-- `SPURuntime.get_new_share_name`: increment `share_seq_id`, render it in
decimal (`f"{self.share_seq_id}"`). -/
def get_new_share_name (st : RTState) : String × RTState :=
  (Nat.repr (st.share_seq_id + 1), { st with share_seq_id := st.share_seq_id + 1 })

/-- `bytes.decode("latin1")`: every byte maps to the code point of the same
value; total. -/
def latin1Decode (bs : List SpuByte) : List Nat := bs.map Fin.val

/-- `str.encode("latin1")`: succeeds iff every code point is below 256
(Python raises `UnicodeEncodeError` otherwise). -/
def latin1Encode : List Nat → Option (List SpuByte)
  | [] => some []
  | c :: cs =>
    if h : c < 256 then (latin1Encode cs).map (⟨c, h⟩ :: ·) else none

/-- One leaf of an SPU meta tree (`SPUValueMeta` dataclass). -/
structure SPUValueMeta where
  shape : List Nat
  dtype : String
  vtype : Nat
  protocol : Nat
  field : Nat
  fxp_fraction_bits : Nat

/-- The record `{'meta': meta, 'shares': shares}` pickled by
`SPURuntime.dump`; `shares` are the latin1-decoded texts. -/
structure DumpRecord where
  meta : Tree SPUValueMeta
  shares : List (List Nat)

/-- The `for name in flatten_names` loop of `SPURuntime.dump`:
`get_var(name)` for each handle, in order. -/
def readShares (store : VarStore) : List String → Option (List (List SpuByte))
  | [] => some []
  | name :: rest =>
    match getVar store name with
    | none => none
    | some bs => (readShares store rest).map (bs :: ·)

/-- `SPURuntime.dump`: flatten the handle tree, read each share from the
store, decode it with latin1, and persist the record (`cloudpickle` is a
lossless black box, modelled as the identity on the record).  `none` when
`get_var` fails on an unknown handle. -/
def dump (store : VarStore) (meta : Tree SPUValueMeta) (val : Tree String) :
    Option DumpRecord :=
  (readShares store (flattenT val)).map fun shares =>
    ⟨meta, shares.map latin1Decode⟩

/-- The `for share in shares` loop body of `SPURuntime.load`: a fresh name
per share, `set_var(name, share.encode("latin1"))`. -/
def loadShares (st : RTState) : List (List Nat) → Option (List String × RTState)
  | [] => some ([], st)
  | s :: rest =>
    let (name, st1) := get_new_share_name st
    match latin1Encode s with
    | none => none
    | some bytes =>
      let st2 : RTState := ⟨setVar st1.store name bytes, st1.share_seq_id⟩
      match loadShares st2 rest with
      | none => none
      | some (names, st3) => some (name :: names, st3)

/-- `SPURuntime.load`: read the record back, store each re-encoded share
under a fresh name, and unflatten the name list by the meta treedef. -/
def load (st : RTState) (rec : DumpRecord) :
    Option (Tree SPUValueMeta × Tree String × RTState) :=
  match loadShares st rec.shares with
  | none => none
  | some (shares_name, st') =>
    match unflattenT (shapeT rec.meta) shares_name with
    | none => none
    | some ntree => some (rec.meta, ntree, st')

/-! ## DuplexJoinTransfer: the chunked two-party stream in `psi_join_csv`

`send_proc` / `recv_proc` (closures in `psi_join_csv`) move the party-local
intersection file to the peer over the blocking link, framed as
`struct.pack(f'?i{len}s', is_final, length, payload)`. -/

/-- One framed chunk `{is_final, length, payload}`. -/
structure Chunk where
  is_final : Bool
  length : Nat
  payload : List SpuByte

/-- The `while read_bytes < in_file_bytes` loop of `send_proc`: read up to
`max_read_bytes = 20480` bytes sequentially and frame each read as a
non-final chunk. -/
def sendLoop (file : List SpuByte) : List Chunk :=
  if file = [] then []
  else
    ⟨false, (file.take 20480).length, file.take 20480⟩ :: sendLoop (file.drop 20480)
termination_by file.length
decreasing_by
  rename_i h
  simp only [List.length_drop]
  have : file.length ≠ 0 := fun h0 => h (List.eq_nil_of_length_eq_zero h0)
  omega

/-- The last batch `struct.pack('?is', True, 1, b'\x00')`. -/
def finalChunk : Chunk := ⟨true, 1, [(0 : Fin 256)]⟩

/-- `send_proc`: stream the file chunks, then the final sentinel chunk. -/
def send_proc (file : List SpuByte) : List Chunk := sendLoop file ++ [finalChunk]

/-- A blocking operation issued on the point-to-point link. -/
inductive LinkAction where
  | send
  | recv
deriving DecidableEq, Repr

/-- `recv_proc`, run against the incoming chunk stream: returns the link
actions it issues and the reassembled peer bytes.  An exhausted stream means
the blocking `link.recv` never completes; a length-field mismatch is the
`assert r2 == len(r3)` failure. -/
def recv_proc : List Chunk → List LinkAction × Except String (List SpuByte)
  | [] => ([.recv], .error "link recv blocked: no incoming message")
  | c :: rest =>
    if c.length ≠ c.payload.length then
      ([.recv], .error "invalid recv msg")
    else if c.is_final then
      ([.recv], .ok [])
    else
      let (acts, r) := recv_proc rest
      (.recv :: acts,
        match r with
        | .ok bs => .ok (c.payload ++ bs)
        | .error e => .error e)

/-- The link actions issued by `send_proc`: one blocking send per chunk. -/
def sendActions (file : List SpuByte) : List LinkAction :=
  (send_proc file).map fun _ => .send

/-- The rank dispatch of `psi_join_csv`:
`if self.rank == 1: send_proc(); recv_proc() else: recv_proc(); send_proc()`.
The resulting sequence of blocking link actions of one party. -/
def joinExchangeActions (rank : Nat) (file : List SpuByte)
    (incoming : List Chunk) : List LinkAction :=
  if rank = 1 then sendActions file ++ (recv_proc incoming).1
  else (recv_proc incoming).1 ++ sendActions file

/-! ## Tail of `psi_join_csv`: local join, external sort, report

After the transfer, `psi_join_csv` reads the peer file, joins it in 100k-row
chunks against its own rows, shells out to `sort`, and returns the report
dictionary.  `join_count` is initialized *inside* `if out_file_bytes > 0:`,
so the later unconditional uses read an unassigned Python local when the
received peer file is empty. -/

/-- The report dictionary returned by `psi_join_csv`. -/
structure JoinReport where
  party : String
  original_count : Nat
  intersection_count : Int
  join_count : Nat
deriving DecidableEq, Repr

/-- Tail of `psi_join_csv` (everything after both transfer procs ran):
`out_file_bytes` is the size of the received peer file,
`chunk_join_counts` the row counts of the per-chunk inner joins, and
`sort_returncode` the exit status of the external sort command. -/
def psi_join_tail (party : String) (original_count : Nat)
    (intersection_count : Int) (out_file_bytes : Nat)
    (chunk_join_counts : List Nat) (sort_returncode : Int) :
    Except String JoinReport :=
  -- `join_count = 0` and its accumulation run only under `if out_file_bytes > 0:`
  let jc : Option Nat :=
    if 0 < out_file_bytes then some chunk_join_counts.sum else none
  match jc with
  | none =>
    -- the f-string `f"...join_count:{join_count}"` reads the unassigned local
    .error "UnboundLocalError: local variable join_count referenced before assignment"
  | some join_count =>
    if sort_returncode = 0 then
      .ok ⟨party, original_count, intersection_count, join_count⟩
    else
      .error "AssertionError: sort cmd failed"

/-! ## `SPUObject.__del__` -/

/-- Python exceptions that can arise on the deletion path. -/
inductive PyErr where
  | typeError
  | assertionError
deriving DecidableEq, Repr

/-- `actor.del_share.remote(handles)`: a fire-and-forget submission.  When
the actor handle was already GCed (party gone / driver exiting) the local
call raises `TypeError`; a live submission returns immediately, and nothing
ever waits on the remote result. -/
def del_share_remote (actorAlive : Bool) : Except PyErr Unit :=
  if actorAlive then .ok () else .error .typeError

/-- The `for i, actor in enumerate(self.device.actors.values())` loop of
`SPUObject.__del__`, whose body is `try: ... except TypeError: pass`. -/
def delLoop : List Bool → Except PyErr Unit
  | [] => .ok ()
  | a :: rest =>
    match del_share_remote a with
    | .ok _ => delLoop rest
    | .error .typeError => delLoop rest
    | .error e => .error e

/-- Body of `SPUObject.__del__`: a `hasattr(self, "shares_name")` guard, the
`assert len(self.shares_name) == len(self.device.actors)`, then the
swallowing deletion loop.  `actors` records which parties still exist. -/
def spuObjectDel (hasSharesName : Bool) (shares_name : List String)
    (actors : List Bool) : Except PyErr Unit :=
  if hasSharesName then
    if shares_name.length = actors.length then delLoop actors
    else .error .assertionError
  else .ok ()

/-! ## `SPURuntime.pir_query` role validation -/

/-- Client whitelist `pir_client_config_names`. -/
def pir_client_config_names : List String :=
  ["input_path", "key_columns", "output_path"]

/-- Server whitelist `pir_server_config_names`. -/
def pir_server_config_names : List String :=
  ["oprf_key_path", "setup_path"]

/-- Structured form of the `InvalidArgumentError`s raised by `pir_query`:
`f'Unsupported param {name} in pir ... config desc, {allowed} are now
available only.'` and `f'param {name} must in pir ... config'`. -/
inductive PirQueryError where
  | unsupportedParam (name : String) (allowed : List String)
  | missingParam (name : String)
deriving DecidableEq, Repr

/-- Protocol-side work performed by `pir_query` after validation. -/
inductive PirEvent where
  | sendSync
  | recvSync
  | runServer
  | runClient
deriving DecidableEq, Repr

/-- The `for name, value in config.items()` check: first key outside the
whitelist, in dict order. -/
def findUnsupported (allowed : List String) : List String → Option String
  | [] => none
  | k :: rest => if k ∈ allowed then findUnsupported allowed rest else some k

/-- The `for name in <role>_config_names` check: first required key absent
from the config. -/
def findMissing (keys : List String) : List String → Option String
  | [] => none
  | r :: rest => if r ∈ keys then findMissing keys rest else some r

/-- The whitelist of the calling party's role (`rank == server_rank` picks
the server branch). -/
def roleWhitelist (isServer : Bool) : List String :=
  if isServer then pir_server_config_names else pir_client_config_names

/-- `SPURuntime.pir_query` for one party, abstracted over the keys of its
caller-supplied config dict: both validation loops run before any link
traffic or PIR protocol work of that role. -/
def pir_query (isServer : Bool) (configKeys : List String) :
    List PirEvent × Except PirQueryError Unit :=
  match findUnsupported (roleWhitelist isServer) configKeys with
  | some k => ([], .error (.unsupportedParam k (roleWhitelist isServer)))
  | none =>
    match findMissing configKeys (roleWhitelist isServer) with
    | some r => ([], .error (.missingParam r))
    | none =>
      if isServer then ([.sendSync, .runServer], .ok ())
      else ([.recvSync, .runClient], .ok ())

/-! ## `SPURuntime.run`: arity check and positional binding -/

/-- `spu_pb2.ExecutableProto`. -/
structure ExecutableProto where
  name : String
  input_names : List String
  output_names : List String
  code : String

/-- Fresh output names: repeated `get_new_share_name` on the counter. -/
def genNames (c : Nat) : Nat → List String × Nat
  | 0 => ([], c)
  | k + 1 =>
    let (names, c') := genNames (c + 1) k
    (Nat.repr (c + 1) :: names, c')

/-- `self.runtime.run(executable)` is the only execution step. -/
inductive RunEvent where
  | execute
deriving DecidableEq, Repr

/-- `SPURuntime.run` up to program execution: flatten the input handle
trees, assert the count matches `executable.input_names`, bind the handles
positionally (`executable.input_names[:] = flatten_names`), generate fresh
output names, and only then run. -/
def spu_run (c : Nat) (exe : ExecutableProto) (val : Tree String) :
    List RunEvent × Except String (ExecutableProto × Nat) :=
  let flatten_names := flattenT val
  if exe.input_names.length = flatten_names.length then
    let (output_names, c') := genNames c exe.output_names.length
    ([.execute],
      .ok ({ exe with input_names := flatten_names, output_names := output_names }, c'))
  else
    ([], .error "AssertionError: len(executable.input_names) == len(flatten_names)")

/-! ## Share-name issuing across a runtime's lifetime -/

/-- The operations of one `SPURuntime` that issue or delete share names. -/
inductive ShareOp where
  | infeed_share (leaves : Nat)
  | load (shares : Nat)
  | run (outputs : Nat)
  | del_share
deriving DecidableEq, Repr

/-- How many `get_new_share_name` calls an operation makes: one per
flattened leaf for `infeed_share`, one per restored share for `load`, one
per `executable.output_names` entry for `run`, none for `del_share`. -/
def opNameCount : ShareOp → Nat
  | .infeed_share k => k
  | .load k => k
  | .run m => m
  | .del_share => 0

/-- All names issued by a sequence of operations, starting from counter
`c` (`share_seq_id = 0` at construction). -/
def issuedNames (c : Nat) : List ShareOp → List String
  | [] => []
  | op :: ops =>
    let (names, c') := genNames c (opNameCount op)
    names ++ issuedNames c' ops

/-- Total number of names a sequence of operations issues. -/
def totalNameCount (ops : List ShareOp) : Nat := (ops.map opNameCount).sum

/-! ## Compile-once dispatch (`_spu_compile` and `SPU.__call__`) -/

/-- Remote calls issued by one invocation of the wrapper in `SPU.__call__`. -/
inductive DispatchEvent where
  | compileCall
  | runCall (rank : Nat)
deriving DecidableEq, Repr

/-- The failure `_spu_compile` surfaces. -/
inductive SpuCallError where
  | workerCrashed
deriving DecidableEq, Repr

/-- `_spu_compile`: one call to `spu_fe.compile`; any raised exception is
replaced by `ray.exceptions.WorkerCrashedError()` (no retry). -/
def spu_compile (feResult : Except String ExecutableProto) :
    Except SpuCallError ExecutableProto :=
  match feResult with
  | .ok exe => .ok exe
  | .error _ => .error .workerCrashed

/-- Dataflow of the wrapper in `SPU.__call__`: `_spu_compile` runs once on
party 0; every party's `run` consumes the compile result, so when compiling
fails the failure propagates to the caller and no `run` body executes. -/
def spu_call (world : Nat) (feResult : Except String ExecutableProto) :
    List DispatchEvent × Except SpuCallError Unit :=
  match spu_compile feResult with
  | .error e => ([.compileCall], .error e)
  | .ok _ => (.compileCall :: (List.range world).map .runCall, .ok ())

/-- Recognizer for compile calls. -/
def isCompileCall : DispatchEvent → Bool
  | .compileCall => true
  | _ => false

/-- Recognizer for per-party run calls. -/
def isRunCall : DispatchEvent → Bool
  | .runCall _ => true
  | _ => false

/-! ## `SPU.__init__` and the caller's `cluster_def` -/

/-- One entry of `cluster_def['nodes']`. -/
structure SPUNodeDef where
  party : String
  address : String
  listen_address : Option String
  tls_opts : Option String

/-- `cluster_def['runtime_config']`. -/
structure RuntimeConfigDef where
  protocol : Nat
  field : Nat
  fxp_fraction_bits : Nat

/-- The caller-supplied `cluster_def` dict: the `nodes` list, the
`runtime_config`, and any further keys the caller stored in the dict. -/
structure ClusterDef where
  nodes : List SPUNodeDef
  runtime_config : RuntimeConfigDef
  extra : List (String × String)

/-- Effect of `SPU.__init__` on the caller's dict: `self.cluster_def =
cluster_def` aliases it, then `self.cluster_def['nodes'].sort(key=lambda x:
x['party'])` re-sorts the caller's own node list in place (Python
`list.sort` is a stable sort); no other key is written.  The result is the
dict as the caller observes it after construction. -/
def spu_init_cluster_dict (cd : ClusterDef) : ClusterDef :=
  { cd with nodes := cd.nodes.mergeSort fun a b => a.party ≤ b.party }

/-- Meta tree of a concrete two-leaf `SPUObject` used to witness C2. -/
def C2wMeta : Tree SPUValueMeta :=
  .node [.leaf ⟨[2], "int64", 1, 2, 2, 18⟩, .leaf ⟨[], "float32", 0, 2, 2, 18⟩]

/-- Handle tree of that object on the dumping runtime. -/
def C2wVal : Tree String := .node [.leaf "1", .leaf "2"]

/-- Store of the dumping runtime: share bytes include non-ASCII octets. -/
def C2wStore : VarStore :=
  fun n => if n = "1" then some [255, 0] else if n = "2" then some [10] else none

/-- The share bytes read back during that dump. -/
def C2wBss : List (List SpuByte) := [[255, 0], [10]]

/-- A concrete two-node list, in reverse name order, to witness C10. -/
def C10wNodes : List SPUNodeDef :=
  [⟨"bob", "127.0.0.1:9002", none, none⟩, ⟨"alice", "127.0.0.1:9001", none, none⟩]

/-- A concrete caller-supplied cluster_def dict to witness C10. -/
def C10wCd : ClusterDef := ⟨C10wNodes, ⟨2, 2, 18⟩, []⟩

theorem charVal_digitChar : ∀ k, k < 10 → charVal (Nat.digitChar k) = k := by decide

theorem toDigitsCore_stable (n : Nat) : ∀ (fuel : Nat) (ds : List Char), n < fuel →
    Nat.toDigitsCore 10 fuel n ds = Nat.toDigits 10 n ++ ds := by
  induction n using Nat.strong_induction_on with
  | _ n ih =>
    intro fuel ds hf
    match fuel, hf with
    | f + 1, hf =>
      by_cases h : n / 10 = 0
      · simp [Nat.toDigitsCore, Nat.toDigits, h]
      · have hnpos : 0 < n := by
          rcases Nat.eq_zero_or_pos n with h0 | h0
          · exact absurd (by simp [h0]) h
          · exact h0
        have hn10 : n / 10 < n := Nat.div_lt_self hnpos (by norm_num)
        have hstep : Nat.toDigitsCore 10 (f + 1) n ds
            = Nat.toDigitsCore 10 f (n / 10) (Nat.digitChar (n % 10) :: ds) := by
          simp [Nat.toDigitsCore, h]
        have hstep0 : Nat.toDigits 10 n
            = Nat.toDigitsCore 10 n (n / 10) [Nat.digitChar (n % 10)] := by
          simp [Nat.toDigits, Nat.toDigitsCore, h]
        have h1 : n / 10 < f := lt_of_lt_of_le hn10 (Nat.lt_succ_iff.mp hf)
        rw [hstep, ih (n / 10) hn10 f _ h1, hstep0, ih (n / 10) hn10 n _ hn10,
          List.append_assoc]
        rfl

theorem toDigits_lt10 {n : Nat} (h : n < 10) : Nat.toDigits 10 n = [Nat.digitChar n] := by
  have h10 : n / 10 = 0 := Nat.div_eq_of_lt h
  have hm : n % 10 = n := Nat.mod_eq_of_lt h
  simp [Nat.toDigits, Nat.toDigitsCore, h10, hm]

theorem toDigits_ge10 {n : Nat} (h : 10 ≤ n) :
    Nat.toDigits 10 n = Nat.toDigits 10 (n / 10) ++ [Nat.digitChar (n % 10)] := by
  have h' : n / 10 ≠ 0 := (Nat.div_pos h (by norm_num)).ne'
  have hn10 : n / 10 < n := Nat.div_lt_self (by omega) (by norm_num)
  calc Nat.toDigits 10 n
      = Nat.toDigitsCore 10 n (n / 10) [Nat.digitChar (n % 10)] := by
        simp [Nat.toDigits, Nat.toDigitsCore, h']
    _ = Nat.toDigits 10 (n / 10) ++ [Nat.digitChar (n % 10)] :=
        toDigitsCore_stable (n / 10) n _ hn10

theorem toDigits_foldl (n : Nat) : ∀ a : Nat,
    (Nat.toDigits 10 n).foldl (fun a c => a * 10 + charVal c) a
      = a * 10 ^ (Nat.toDigits 10 n).length + n := by
  induction n using Nat.strong_induction_on with
  | _ n ih =>
    intro a
    by_cases h : n < 10
    · rw [toDigits_lt10 h]
      simp [List.foldl, charVal_digitChar n h]
    · have h10 : 10 ≤ n := le_of_not_lt h
      have hn10 : n / 10 < n := Nat.div_lt_self (by omega) (by norm_num)
      rw [toDigits_ge10 h10, List.foldl_append, ih (n / 10) hn10 a]
      have hm : charVal (Nat.digitChar (n % 10)) = n % 10 :=
        charVal_digitChar (n % 10) (Nat.mod_lt n (by norm_num))
      simp only [List.foldl, hm, List.length_append, List.length_singleton]
      have : (a * 10 ^ (Nat.toDigits 10 (n / 10)).length + n / 10) * 10 + n % 10
          = a * 10 ^ ((Nat.toDigits 10 (n / 10)).length + 1) + (10 * (n / 10) + n % 10) := by
        ring
      rw [this, Nat.div_add_mod]

theorem parseDigits_toDigits (n : Nat) : parseDigits (Nat.toDigits 10 n) = n := by
  have := toDigits_foldl n 0
  simpa [parseDigits] using this

theorem natRepr_injective : Function.Injective Nat.repr := by
  intro a b h
  have hd : Nat.toDigits 10 a = Nat.toDigits 10 b := by
    have := congrArg String.data h
    simpa [Nat.repr, List.asString] using this
  have := congrArg parseDigits hd
  rwa [parseDigits_toDigits, parseDigits_toDigits] at this

mutual

theorem unflT_spec (s : Tree Unit) (bs : List β)
    (h : (flattenT s).length ≤ bs.length) :
    ∃ t, unflT s bs = some (t, bs.drop (flattenT s).length) ∧
      shapeT t = s ∧ flattenT t = bs.take (flattenT s).length := by
  match s, bs with
  | .leaf _, [] => simp [flattenT] at h
  | .leaf _, b :: bs =>
    refine ⟨.leaf b, ?_⟩
    simp [unflT, flattenT, shapeT]
  | .node cs, bs =>
    have h' : (flattenL cs).length ≤ bs.length := by
      simpa [flattenT] using h
    obtain ⟨ts, hu, hs, hf⟩ := unflL_spec cs bs h'
    exact ⟨.node ts, by simp [unflT, hu, flattenT, shapeT, hs, hf]⟩

theorem unflL_spec (ss : List (Tree Unit)) (bs : List β)
    (h : (flattenL ss).length ≤ bs.length) :
    ∃ ts, unflL ss bs = some (ts, bs.drop (flattenL ss).length) ∧
      shapeL ts = ss ∧ flattenL ts = bs.take (flattenL ss).length := by
  match ss, bs with
  | [], bs => exact ⟨[], by simp [unflL, flattenL, shapeL]⟩
  | s :: ss, bs =>
    have h1 : (flattenT s).length ≤ bs.length := by
      simp [flattenL] at h
      omega
    obtain ⟨t, hu1, hs1, hf1⟩ := unflT_spec s bs h1
    have h2 : (flattenL ss).length ≤ (bs.drop (flattenT s).length).length := by
      simp [flattenL] at h
      simp [List.length_drop]
      omega
    obtain ⟨ts, hu2, hs2, hf2⟩ := unflL_spec ss (bs.drop (flattenT s).length) h2
    refine ⟨t :: ts, ?_, ?_, ?_⟩
    · simp only [unflL]
      rw [hu1]
      simp only [hu2]
      simp [flattenL, List.drop_drop, Nat.add_comm]
    · simp [shapeL, hs1, hs2]
    · simp [flattenL, hf1, hf2, List.take_add]

end

/-- unflatten succeeds and rebuilds the shape when the leaf count matches
exactly. -/
theorem unflattenT_spec (s : Tree Unit) (bs : List β)
    (h : (flattenT s).length = bs.length) :
    ∃ t, unflattenT s bs = some t ∧ shapeT t = s ∧ flattenT t = bs := by
  obtain ⟨t, hu, hs, hf⟩ := unflT_spec s bs (le_of_eq h)
  refine ⟨t, ?_, hs, ?_⟩
  · simp [unflattenT, hu, h, List.drop_length]
  · simpa [h, List.take_length] using hf

mutual

/-- Flattening the shape keeps the leaf count. -/
theorem length_flattenT_shapeT (t : Tree α) :
    (flattenT (shapeT t)).length = (flattenT t).length := by
  match t with
  | .leaf a => simp [flattenT, shapeT]
  | .node cs => simpa [flattenT, shapeT] using length_flattenL_shapeL cs

theorem length_flattenL_shapeL (ts : List (Tree α)) :
    (flattenL (shapeL ts)).length = (flattenL ts).length := by
  match ts with
  | [] => simp [flattenL, shapeL]
  | t :: ts =>
    simp [flattenL, shapeL, length_flattenT_shapeT t, length_flattenL_shapeL ts]

end

theorem latin1Encode_decode (bs : List SpuByte) :
    latin1Encode (latin1Decode bs) = some bs := by
  induction bs with
  | nil => rfl
  | cons b bs ih =>
    simp only [latin1Decode, List.map_cons, latin1Encode] at ih ⊢
    simp [ih, b.isLt]

theorem readShares_spec (store : VarStore) : ∀ (names : List String)
    (bss : List (List SpuByte)), readShares store names = some bss →
    names.map store = bss.map some ∧ bss.length = names.length := by
  intro names
  induction names with
  | nil =>
    intro bss h
    simp only [readShares, Option.some.injEq] at h
    simp [← h]
  | cons name rest ih =>
    intro bss h
    simp only [readShares] at h
    cases hv : getVar store name with
    | none => rw [hv] at h; exact absurd h (by simp)
    | some bs =>
      rw [hv] at h
      cases hr : readShares store rest with
      | none => rw [hr] at h; exact absurd h (by simp)
      | some bss0 =>
        rw [hr] at h
        simp only [Option.map, Option.some.injEq] at h
        obtain ⟨hmap, hlen⟩ := ih bss0 hr
        subst h
        refine ⟨?_, by simp [hlen]⟩
        simp only [List.map_cons, hmap, List.cons.injEq]
        exact ⟨hv, trivial⟩

theorem loadShares_ok (bss : List (List SpuByte)) : ∀ st : RTState,
    ∃ st' : RTState,
      loadShares st (bss.map latin1Decode)
        = some ((List.range' (st.share_seq_id + 1) bss.length).map Nat.repr, st')
      ∧ st'.share_seq_id = st.share_seq_id + bss.length
      ∧ (∀ name,
          (∀ i ∈ List.range' (st.share_seq_id + 1) bss.length, Nat.repr i ≠ name) →
          st'.store name = st.store name)
      ∧ ((List.range' (st.share_seq_id + 1) bss.length).map Nat.repr).map st'.store
          = bss.map some := by
  induction bss with
  | nil =>
    intro st
    exact ⟨st, by simp [loadShares], by simp, fun _ _ => rfl, by simp⟩
  | cons bs rest ih =>
    intro st
    obtain ⟨st3, hload, hid, hframe, hvals⟩ :=
      ih ⟨setVar st.store (Nat.repr (st.share_seq_id + 1)) bs, st.share_seq_id + 1⟩
    dsimp only at hload hid hframe hvals
    have hinj : ∀ i ∈ List.range' (st.share_seq_id + 1 + 1) rest.length,
        Nat.repr i ≠ Nat.repr (st.share_seq_id + 1) := by
      intro i hi h
      have := natRepr_injective h
      subst this
      simp only [List.mem_range'_1] at hi
      omega
    refine ⟨st3, ?_, ?_, ?_, ?_⟩
    · simp only [List.map_cons, loadShares, get_new_share_name, latin1Encode_decode]
      rw [hload]
      simp [List.range'_succ]
    · rw [hid]
      simp only [List.length_cons]
      omega
    · intro name hname
      have h1 : Nat.repr (st.share_seq_id + 1) ≠ name :=
        hname (st.share_seq_id + 1) (by simp [List.range'_succ])
      have h2 : ∀ i ∈ List.range' (st.share_seq_id + 1 + 1) rest.length,
          Nat.repr i ≠ name := by
        intro i hi
        refine hname i ?_
        simp only [List.length_cons, List.range'_succ, List.mem_cons]
        right
        exact hi
      rw [hframe name h2]
      have h1' : name ≠ Nat.repr (st.share_seq_id + 1) := fun h => h1 h.symm
      simp [setVar, h1']
    · simp only [List.length_cons, List.range'_succ, List.map_cons, List.cons.injEq]
      refine ⟨?_, ?_⟩
      · rw [hframe _ hinj]
        simp [setVar]
      · exact hvals

/-- C2: round-trip law for share persistence.  For every meta tree and
every handle tree whose leaf handles are present in the dumping runtime's
store (with matching leaf counts, the `SPUObject` invariant), `load` after
`dump` restores every share byte-for-byte through the latin1 encode/decode,
returns a meta equal to the original, and rebuilds a handle tree of the
meta's shape. -/
theorem C2_dump_load_roundtrip (dumpStore : VarStore) (meta : Tree SPUValueMeta)
    (val : Tree String) (loadSt : RTState) (bss : List (List SpuByte))
    (hread : readShares dumpStore (flattenT val) = some bss)
    (hcount : leafCountT val = leafCountT meta) :
    ∃ rec ntree st',
      dump dumpStore meta val = some rec ∧
      rec.meta = meta ∧
      load loadSt rec = some (meta, ntree, st') ∧
      shapeT ntree = shapeT meta ∧
      (flattenT ntree).map st'.store = (flattenT val).map dumpStore := by
  obtain ⟨hmap, hlen⟩ := readShares_spec dumpStore (flattenT val) bss hread
  obtain ⟨st', hload, hid, hframe, hvals⟩ := loadShares_ok bss loadSt
  have hcount' : (flattenT val).length = (flattenT meta).length := hcount
  have hlen2 : bss.length = (flattenT meta).length := hlen.trans hcount'
  have hshape : (flattenT (shapeT meta)).length
      = ((List.range' (loadSt.share_seq_id + 1) bss.length).map Nat.repr).length := by
    simp [length_flattenT_shapeT, hlen2]
  obtain ⟨ntree, hu, hsh, hfl⟩ :=
    unflattenT_spec (shapeT meta)
      ((List.range' (loadSt.share_seq_id + 1) bss.length).map Nat.repr) hshape
  refine ⟨⟨meta, bss.map latin1Decode⟩, ntree, st', ?_, rfl, ?_, hsh, ?_⟩
  · simp [dump, hread]
  · simp only [load, hload, hu]
  · rw [hfl, hvals, hmap]

theorem sendLoop_chunks (file : List SpuByte) :
    ∀ c ∈ sendLoop file,
      c.is_final = false ∧ c.length = c.payload.length ∧ c.payload.length ≤ 20480 := by
  induction file using sendLoop.induct with
  | case1 => simp [sendLoop]
  | case2 file hne ih =>
    rw [sendLoop, if_neg hne]
    intro c hc
    rcases List.mem_cons.mp hc with h | h
    · subst h
      refine ⟨rfl, rfl, ?_⟩
      simp [List.length_take]
    · exact ih c h

theorem sendLoop_concat (file : List SpuByte) :
    ((sendLoop file).map Chunk.payload).flatten = file := by
  induction file using sendLoop.induct with
  | case1 => simp [sendLoop]
  | case2 file hne ih =>
    rw [sendLoop, if_neg hne]
    simp [ih]

theorem recv_proc_reassembles (file : List SpuByte) :
    (recv_proc (send_proc file)).2 = .ok file := by
  induction file using sendLoop.induct with
  | case1 => simp [send_proc, sendLoop, recv_proc, finalChunk]
  | case2 file hne ih =>
    rw [send_proc, sendLoop, if_neg hne]
    simp only [List.cons_append, recv_proc]
    rw [if_neg (by simp)]
    simp only [Bool.false_eq_true, if_false]
    rw [show (sendLoop (file.drop 20480)).append [finalChunk]
          = send_proc (file.drop 20480) from rfl]
    cases hr : recv_proc (send_proc (file.drop 20480)) with
    | mk acts r =>
      have : r = .ok (file.drop 20480) := by
        have := ih
        rw [hr] at this
        exact this
      subst this
      simp

/-- Exactly one final chunk per stream. -/
theorem send_proc_one_final (file : List SpuByte) :
    ((send_proc file).filter (fun c => c.is_final)).length = 1 := by
  have hnone : (sendLoop file).filter (fun c => c.is_final) = [] := by
    apply List.filter_eq_nil_iff.mpr
    intro c hc
    simp [(sendLoop_chunks file c hc).1]
  simp [send_proc, List.filter_append, hnone, finalChunk]

theorem delLoop_ok : ∀ actors : List Bool, delLoop actors = .ok () := by
  intro actors
  induction actors with
  | nil => rfl
  | cons a rest ih => cases a <;> simp [delLoop, del_share_remote, ih]

theorem findUnsupported_some (allowed : List String) : ∀ keys k,
    findUnsupported allowed keys = some k → k ∈ keys ∧ k ∉ allowed := by
  intro keys
  induction keys with
  | nil => intro k h; simp [findUnsupported] at h
  | cons key rest ih =>
    intro k h
    by_cases hm : key ∈ allowed
    · rw [findUnsupported, if_pos hm] at h
      obtain ⟨h1, h2⟩ := ih k h
      exact ⟨List.mem_cons_of_mem _ h1, h2⟩
    · rw [findUnsupported, if_neg hm] at h
      cases h
      exact ⟨List.mem_cons_self _ _, hm⟩

theorem findUnsupported_none (allowed : List String) : ∀ keys,
    (∀ k ∈ keys, k ∈ allowed) → findUnsupported allowed keys = none := by
  intro keys
  induction keys with
  | nil => intro _; rfl
  | cons key rest ih =>
    intro h
    rw [findUnsupported, if_pos (h key (List.mem_cons_self _ _))]
    exact ih fun k hk => h k (List.mem_cons_of_mem _ hk)

theorem findUnsupported_isSome (allowed : List String) : ∀ keys k, k ∈ keys →
    k ∉ allowed → ∃ k', findUnsupported allowed keys = some k' := by
  intro keys
  induction keys with
  | nil => intro k h; simp at h
  | cons key rest ih =>
    intro k hk ha
    by_cases hm : key ∈ allowed
    · rw [findUnsupported, if_pos hm]
      rcases List.mem_cons.mp hk with h | h
      · subst h; exact absurd hm ha
      · exact ih k h ha
    · exact ⟨key, by rw [findUnsupported, if_neg hm]⟩

theorem findMissing_some (keys : List String) : ∀ req r,
    findMissing keys req = some r → r ∈ req ∧ r ∉ keys := by
  intro req
  induction req with
  | nil => intro r h; simp [findMissing] at h
  | cons q rest ih =>
    intro r h
    by_cases hm : q ∈ keys
    · rw [findMissing, if_pos hm] at h
      obtain ⟨h1, h2⟩ := ih r h
      exact ⟨List.mem_cons_of_mem _ h1, h2⟩
    · rw [findMissing, if_neg hm] at h
      cases h
      exact ⟨List.mem_cons_self _ _, hm⟩

theorem findMissing_isSome (keys : List String) : ∀ req r, r ∈ req → r ∉ keys →
    ∃ r', findMissing keys req = some r' := by
  intro req
  induction req with
  | nil => intro r h; simp at h
  | cons q rest ih =>
    intro r hr hk
    by_cases hm : q ∈ keys
    · rw [findMissing, if_pos hm]
      rcases List.mem_cons.mp hr with h | h
      · subst h; exact absurd hm hk
      · exact ih r h hk
    · exact ⟨q, by rw [findMissing, if_neg hm]⟩

theorem genNames_eq (k : Nat) : ∀ c,
    genNames c k = ((List.range' (c + 1) k).map Nat.repr, c + k) := by
  induction k with
  | zero => intro c; simp [genNames]
  | succ k ih =>
    intro c
    rw [genNames, ih (c + 1)]
    simp [List.range'_succ]
    omega

theorem issuedNames_eq (ops : List ShareOp) : ∀ c,
    issuedNames c ops = (List.range' (c + 1) (totalNameCount ops)).map Nat.repr := by
  induction ops with
  | nil => intro c; simp [issuedNames, totalNameCount]
  | cons op rest ih =>
    intro c
    rw [issuedNames, genNames_eq]
    dsimp only
    rw [ih]
    rw [show totalNameCount (op :: rest) = opNameCount op + totalNameCount rest from by
      simp [totalNameCount]]
    rw [← List.map_append,
      show c + opNameCount op + 1 = c + 1 + opNameCount op from by omega,
      List.range'_append_1, Nat.add_comm (totalNameCount rest) (opNameCount op)]

theorem sendActions_all (file : List SpuByte) :
    ∀ a ∈ sendActions file, a = .send := by
  intro a ha
  rcases List.mem_map.mp ha with ⟨c, _, h⟩
  exact h.symm

theorem recv_proc_acts_all : ∀ incoming : List Chunk,
    ∀ a ∈ (recv_proc incoming).1, a = .recv := by
  intro incoming
  induction incoming with
  | nil => simp [recv_proc]
  | cons c rest ih =>
    simp only [recv_proc]
    by_cases h1 : c.length ≠ c.payload.length
    · rw [if_pos h1]; simp
    · rw [if_neg h1]
      by_cases h2 : c.is_final
      · simp [h2]
      · cases hr : recv_proc rest with
        | mk acts r =>
          simp only [h2, if_false, hr]
          intro a ha
          rcases List.mem_cons.mp ha with h | h
          · exact h
          · exact ih a (by rw [hr]; exact h)

theorem recv_proc_head (incoming : List Chunk) :
    (recv_proc incoming).1.head? = some .recv := by
  cases incoming with
  | nil => rfl
  | cons c rest =>
    simp only [recv_proc]
    by_cases h1 : c.length ≠ c.payload.length
    · rw [if_pos h1]; rfl
    · rw [if_neg h1]
      by_cases h2 : c.is_final
      · simp [h2]
      · cases hr : recv_proc rest with
        | mk acts r => simp [h2, hr]

theorem sendActions_head (file : List SpuByte) :
    (sendActions file).head? = some .send := by
  have hne : send_proc file ≠ [] := by
    simp [send_proc]
  cases hs : send_proc file with
  | nil => exact absurd hs hne
  | cons c rest => simp [sendActions, hs]

/-! ## Claims -/

/-- C1: the claim is right about the code's intent but the code is wrong.
`psi_join_csv` intends to return a report dict with keys `party`,
`original_count`, `intersection_count`, `join_count` even when the received
peer intersection file is empty; but `join_count = 0` is initialized inside
`if out_file_bytes > 0:`, so at `out_file_bytes = 0` the unconditional
logging f-string reads an unassigned local and the call raises
`UnboundLocalError` instead of returning `join_count = 0`. -/
theorem C1_empty_peer_file_raises (party : String) (original_count : Nat)
    (intersection_count : Int) (chunk_join_counts : List Nat)
    (sort_returncode : Int) :
    psi_join_tail party original_count intersection_count 0 chunk_join_counts
        sort_returncode
      = .error
        "UnboundLocalError: local variable join_count referenced before assignment" :=
  rfl

/-- C3: in the two-party exchange of `psi_join_csv`, rank 1 (the higher
rank) performs all of its sends before issuing any receive, rank 0 performs
all of its receives before issuing any send, and the two parties never both
begin with a blocking send: rank 1's first link action is a send, rank 0's
is a receive. -/
theorem C3_rank_ordered_exchange (file0 file1 : List SpuByte)
    (inc0 inc1 : List Chunk) :
    joinExchangeActions 1 file1 inc1 = sendActions file1 ++ (recv_proc inc1).1 ∧
    joinExchangeActions 0 file0 inc0 = (recv_proc inc0).1 ++ sendActions file0 ∧
    (∀ a ∈ sendActions file1, a = .send) ∧
    (∀ a ∈ sendActions file0, a = .send) ∧
    (∀ a ∈ (recv_proc inc1).1, a = .recv) ∧
    (∀ a ∈ (recv_proc inc0).1, a = .recv) ∧
    (joinExchangeActions 1 file1 inc1).head? = some .send ∧
    (joinExchangeActions 0 file0 inc0).head? = some .recv := by
  refine ⟨by simp [joinExchangeActions], by simp [joinExchangeActions],
    sendActions_all file1, sendActions_all file0,
    recv_proc_acts_all inc1, recv_proc_acts_all inc0, ?_, ?_⟩
  · have h := sendActions_head file1
    cases hs : sendActions file1 with
    | nil => rw [hs] at h; exact absurd h (by simp)
    | cons a rest => simp [joinExchangeActions, hs]; simpa [hs] using h
  · have h := recv_proc_head inc0
    cases hs : (recv_proc inc0).1 with
    | nil => rw [hs] at h; exact absurd h (by simp)
    | cons a rest => simp [joinExchangeActions, hs]; simpa [hs] using h

/-- C4: every non-final chunk sent by `send_proc` is framed
`{is_final=false, length, payload}` with `length` equal to the payload size
and at most 20480 bytes, read sequentially from the start of the file; the
non-final payloads concatenate to exactly the source file; the stream ends
with exactly one final chunk `{is_final=true, length=1}` carrying the single
sentinel byte; and `recv_proc` reassembles a byte-identical file. -/
theorem C4_chunk_framing (file : List SpuByte) :
    (∀ c ∈ sendLoop file,
      c.is_final = false ∧ c.length = c.payload.length ∧ c.payload.length ≤ 20480) ∧
    ((sendLoop file).map Chunk.payload).flatten = file ∧
    send_proc file = sendLoop file ++ [finalChunk] ∧
    finalChunk = ⟨true, 1, [(0 : Fin 256)]⟩ ∧
    ((send_proc file).filter (fun c => c.is_final)).length = 1 ∧
    (recv_proc (send_proc file)).2 = .ok file :=
  ⟨sendLoop_chunks file, sendLoop_concat file, rfl, rfl,
    send_proc_one_final file, recv_proc_reassembles file⟩

/-- C5: `SPUObject.__del__` never propagates an error, for every object
satisfying the constructor invariant (one share tree per actor — every
`SPUObject` built by the code satisfies it) and every pattern of live/gone
parties, including all parties gone; and a second release — with possibly
more parties gone by then — also returns without raising. -/
theorem C5_del_release (hasSharesName : Bool) (shares_name : List String)
    (actors1 actors2 : List Bool)
    (h1 : shares_name.length = actors1.length)
    (h2 : shares_name.length = actors2.length) :
    spuObjectDel hasSharesName shares_name actors1 = .ok () ∧
    spuObjectDel hasSharesName shares_name actors2 = .ok () := by
  cases hasSharesName with
  | false => exact ⟨rfl, rfl⟩
  | true =>
    constructor
    · rw [spuObjectDel, if_pos rfl, if_pos h1]
      exact delLoop_ok actors1
    · rw [spuObjectDel, if_pos rfl, if_pos h2]
      exact delLoop_ok actors2

/-- Witness for C5 at a concrete object: two shares, one party already
gone on the first release, both gone on the second. -/
theorem C5_witness :
    spuObjectDel true ["1", "2"] [true, false] = .ok () ∧
    spuObjectDel true ["1", "2"] [false, false] = .ok () :=
  C5_del_release true ["1", "2"] [true, false] [false, false] rfl rfl

/-- C6: `pir_query` validation.  Any config key outside the calling role's
whitelist yields an `unsupportedParam` error naming an offending key and the
whitelist; with all keys whitelisted, a missing required key yields a
`missingParam` error; and every validation error is produced with no link or
PIR protocol event, i.e. before any protocol work of that role. -/
theorem C6_pir_query_validation (isServer : Bool) (configKeys : List String) :
    ((∃ k ∈ configKeys, k ∉ roleWhitelist isServer) →
      ∃ k, k ∈ configKeys ∧ k ∉ roleWhitelist isServer ∧
        pir_query isServer configKeys
          = ([], .error (.unsupportedParam k (roleWhitelist isServer)))) ∧
    ((∀ k ∈ configKeys, k ∈ roleWhitelist isServer) →
      ∀ r ∈ roleWhitelist isServer, r ∉ configKeys →
        ∃ r', r' ∈ roleWhitelist isServer ∧ r' ∉ configKeys ∧
          pir_query isServer configKeys = ([], .error (.missingParam r'))) ∧
    (∀ events err, pir_query isServer configKeys = (events, .error err) →
      events = []) := by
  refine ⟨?_, ?_, ?_⟩
  · rintro ⟨k, hk, hnw⟩
    obtain ⟨k', hk'⟩ := findUnsupported_isSome (roleWhitelist isServer) configKeys k hk hnw
    obtain ⟨hmem, hnmem⟩ := findUnsupported_some (roleWhitelist isServer) configKeys k' hk'
    exact ⟨k', hmem, hnmem, by rw [pir_query, hk']⟩
  · intro hall r hr hnk
    have hnone : findUnsupported (roleWhitelist isServer) configKeys = none :=
      findUnsupported_none (roleWhitelist isServer) configKeys hall
    obtain ⟨r', hr'⟩ := findMissing_isSome configKeys (roleWhitelist isServer) r hr hnk
    obtain ⟨hmem, hnmem⟩ := findMissing_some configKeys (roleWhitelist isServer) r' hr'
    exact ⟨r', hmem, hnmem, by rw [pir_query, hnone, hr']⟩
  · intro events err h
    cases hu : findUnsupported (roleWhitelist isServer) configKeys with
    | some k =>
      have he : pir_query isServer configKeys
          = ([], .error (.unsupportedParam k (roleWhitelist isServer))) := by
        rw [pir_query, hu]
      rw [he] at h
      injection h with h1 h2
      exact h1.symm
    | none =>
      cases hm : findMissing configKeys (roleWhitelist isServer) with
      | some r =>
        have he : pir_query isServer configKeys = ([], .error (.missingParam r)) := by
          rw [pir_query, hu, hm]
        rw [he] at h
        injection h with h1 h2
        exact h1.symm
      | none =>
        have he : (pir_query isServer configKeys).2 = .ok () := by
          rw [pir_query, hu, hm]
          cases isServer <;> rfl
        rw [h] at he
        exact absurd he (by simp)

/-- Witness for C6: a server-role call carrying the client-only key
`input_path` is rejected naming `input_path` and the server whitelist; a
client-role call missing `output_path` is rejected with a missing-parameter
error. -/
theorem C6_witness :
    (∃ k, k ∈ ["input_path"] ∧ k ∉ roleWhitelist true ∧
      pir_query true ["input_path"]
        = ([], .error (.unsupportedParam k (roleWhitelist true)))) ∧
    (∃ r', r' ∈ roleWhitelist false ∧ r' ∉ ["input_path", "key_columns"] ∧
      pir_query false ["input_path", "key_columns"]
        = ([], .error (.missingParam r'))) :=
  ⟨(C6_pir_query_validation true ["input_path"]).1
      ⟨"input_path", by simp, by decide⟩,
    (C6_pir_query_validation false ["input_path", "key_columns"]).2.1
      (by decide) "output_path" (by decide) (by decide)⟩

/-- C7: `SPURuntime.run` asserts that the flattened input-handle count
equals `len(executable.input_names)` before any execution: on a mismatch it
fails with no execution event; when counts match the failure branch is
unreachable (the call succeeds) and the handles are bound positionally —
the rewritten `input_names` list is exactly the flattened handle list. -/
theorem C7_run_arity (c : Nat) (exe : ExecutableProto) (val : Tree String) :
    ((flattenT val).length ≠ exe.input_names.length →
      spu_run c exe val
        = ([], .error
            "AssertionError: len(executable.input_names) == len(flatten_names)")) ∧
    (exe.input_names.length = (flattenT val).length →
      ∃ exe' c', spu_run c exe val = ([.execute], .ok (exe', c')) ∧
        exe'.input_names = flattenT val ∧
        exe'.output_names.length = exe.output_names.length) := by
  constructor
  · intro h
    rw [spu_run]
    rw [if_neg (fun he => h he.symm)]
  · intro h
    refine ⟨⟨exe.name, flattenT val, (genNames c exe.output_names.length).1, exe.code⟩,
      (genNames c exe.output_names.length).2, ?_, rfl, ?_⟩
    · rw [spu_run, if_pos h]
    · simp [genNames_eq]

/-- Witness for C7: a mismatched call (1 declared input, 0 handles) fails
with no execution; a matched call (1 and 1) succeeds binding positionally. -/
theorem C7_witness :
    (spu_run 0 ⟨"exe", ["in1"], ["out1"], "code"⟩ (.node [])
      = ([], .error
          "AssertionError: len(executable.input_names) == len(flatten_names)")) ∧
    (∃ exe' c', spu_run 0 ⟨"exe", ["in1"], ["out1"], "code"⟩ (.leaf "5")
      = ([.execute], .ok (exe', c')) ∧
      exe'.input_names = flattenT (.leaf "5") ∧
      exe'.output_names.length = 1) :=
  ⟨(C7_run_arity 0 ⟨"exe", ["in1"], ["out1"], "code"⟩ (.node [])).1 (by decide),
    (C7_run_arity 0 ⟨"exe", ["in1"], ["out1"], "code"⟩ (.leaf "5")).2 (by decide)⟩

/-- C8: across any sequence of share-name-generating operations
(`infeed_share`, `load`, `run`, with `del_share` interleaved) on one
`SPURuntime`, the issued names are the decimal renderings of the strictly
increasing counter values `1, 2, …`, hence pairwise distinct; a name once
issued (even if its entry is later deleted, which never touches the
counter) is never issued again. -/
theorem C8_share_names_unique (ops : List ShareOp) :
    issuedNames 0 ops = (List.range' 1 (totalNameCount ops)).map Nat.repr ∧
    (List.range' 1 (totalNameCount ops)).Pairwise (· < ·) ∧
    (issuedNames 0 ops).Pairwise (· ≠ ·) := by
  refine ⟨by simpa using issuedNames_eq ops 0, List.pairwise_lt_range' 1 _, ?_⟩
  rw [issuedNames_eq]
  exact ((List.nodup_range' 1 (totalNameCount ops)).map natRepr_injective :
    List.Nodup _)

/-- C9: when the single compiling party's `spu_fe.compile` raises, the whole
invocation fails: `_spu_compile` surfaces a `WorkerCrashedError` to the
caller after exactly one compile call (no retry), and no party run
executes. -/
theorem C9_compile_failure_fatal (world : Nat) (msg : String) :
    spu_call world (.error msg) = ([.compileCall], .error .workerCrashed) ∧
    ((spu_call world (.error msg)).1.filter isCompileCall).length = 1 ∧
    ((spu_call world (.error msg)).1.filter isRunCall).length = 0 :=
  ⟨rfl, rfl, rfl⟩

/-- C10: constructing an SPU device re-sorts the caller's `cluster_def`
`nodes` list in place by party name, and changes nothing else: the
runtime_config and any other key are untouched, and the sorted list is a
permutation of the original whose entries are the original node dicts
themselves. -/
theorem C10_init_sorts_nodes (cd : ClusterDef) :
    (spu_init_cluster_dict cd).runtime_config = cd.runtime_config ∧
    (spu_init_cluster_dict cd).extra = cd.extra ∧
    (spu_init_cluster_dict cd).nodes.Perm cd.nodes ∧
    (spu_init_cluster_dict cd).nodes.Pairwise (fun a b => a.party ≤ b.party) ∧
    ∀ n ∈ (spu_init_cluster_dict cd).nodes, n ∈ cd.nodes := by
  have hperm : (spu_init_cluster_dict cd).nodes.Perm cd.nodes :=
    List.mergeSort_perm cd.nodes _
  refine ⟨rfl, rfl, hperm, ?_, fun n hn => hperm.mem_iff.mp hn⟩
  have hs := @List.sorted_mergeSort SPUNodeDef
    (fun a b => decide (a.party ≤ b.party))
    (fun a b c hab hbc => by
      simp only [decide_eq_true_eq] at *
      exact le_trans hab hbc)
    (fun a b => by
      simp only [Bool.or_eq_true, decide_eq_true_eq]
      exact le_total a.party b.party)
    cd.nodes
  exact hs.imp fun h => by simpa using h

/-- Witness for C2 at a concrete meta/handle tree and store, loading on the
same runtime (same store, counter 2). -/
theorem C2_witness :
    ∃ rec ntree st',
      dump C2wStore C2wMeta C2wVal = some rec ∧ rec.meta = C2wMeta ∧
      load ⟨C2wStore, 2⟩ rec = some (C2wMeta, ntree, st') ∧
      shapeT ntree = shapeT C2wMeta ∧
      (flattenT ntree).map st'.store = (flattenT C2wVal).map C2wStore :=
  C2_dump_load_roundtrip C2wStore C2wMeta C2wVal ⟨C2wStore, 2⟩ C2wBss (by rfl) (by rfl)

/-- Witness for C3 at concrete files and incoming streams. -/
theorem C3_witness :
    joinExchangeActions 1 [(0 : SpuByte)] [finalChunk]
        = sendActions [(0 : SpuByte)] ++ (recv_proc [finalChunk]).1 ∧
    joinExchangeActions 0 [] [finalChunk]
        = (recv_proc [finalChunk]).1 ++ sendActions [] ∧
    (∀ a ∈ sendActions [(0 : SpuByte)], a = .send) ∧
    (∀ a ∈ sendActions ([] : List SpuByte), a = .send) ∧
    (∀ a ∈ (recv_proc [finalChunk]).1, a = .recv) ∧
    (∀ a ∈ (recv_proc [finalChunk]).1, a = .recv) ∧
    (joinExchangeActions 1 [(0 : SpuByte)] [finalChunk]).head? = some .send ∧
    (joinExchangeActions 0 [] [finalChunk]).head? = some .recv :=
  C3_rank_ordered_exchange [] [(0 : SpuByte)] [finalChunk] [finalChunk]

/-- Witness for C4 at a concrete two-byte file. -/
theorem C4_witness :
    (∀ c ∈ sendLoop [(0 : SpuByte), 1],
      c.is_final = false ∧ c.length = c.payload.length ∧ c.payload.length ≤ 20480) ∧
    ((sendLoop [(0 : SpuByte), 1]).map Chunk.payload).flatten = [(0 : SpuByte), 1] ∧
    send_proc [(0 : SpuByte), 1] = sendLoop [(0 : SpuByte), 1] ++ [finalChunk] ∧
    finalChunk = ⟨true, 1, [(0 : Fin 256)]⟩ ∧
    ((send_proc [(0 : SpuByte), 1]).filter (fun c => c.is_final)).length = 1 ∧
    (recv_proc (send_proc [(0 : SpuByte), 1])).2 = .ok [(0 : SpuByte), 1] :=
  C4_chunk_framing [(0 : SpuByte), 1]

/-- Witness for C8 at a concrete operation sequence with a deletion
interleaved between name-issuing operations. -/
theorem C8_witness :
    issuedNames 0 [.infeed_share 2, .del_share, .run 1]
        = (List.range' 1 (totalNameCount [.infeed_share 2, .del_share, .run 1])).map
            Nat.repr ∧
    (List.range' 1 (totalNameCount [.infeed_share 2, .del_share, .run 1])).Pairwise
        (· < ·) ∧
    (issuedNames 0 [.infeed_share 2, .del_share, .run 1]).Pairwise (· ≠ ·) :=
  C8_share_names_unique [.infeed_share 2, .del_share, .run 1]

/-- Witness for C9 at a three-party cluster and a concrete compile error. -/
theorem C9_witness :
    spu_call 3 (.error "compile failed") = ([.compileCall], .error .workerCrashed) ∧
    ((spu_call 3 (.error "compile failed")).1.filter isCompileCall).length = 1 ∧
    ((spu_call 3 (.error "compile failed")).1.filter isRunCall).length = 0 :=
  C9_compile_failure_fatal 3 "compile failed"

/-- Witness for C10 at a concrete two-node cluster given in reverse name
order. -/
theorem C10_witness :
    (spu_init_cluster_dict C10wCd).runtime_config = C10wCd.runtime_config ∧
    (spu_init_cluster_dict C10wCd).extra = C10wCd.extra ∧
    (spu_init_cluster_dict C10wCd).nodes.Perm C10wCd.nodes ∧
    (spu_init_cluster_dict C10wCd).nodes.Pairwise (fun a b => a.party ≤ b.party) ∧
    ∀ n ∈ (spu_init_cluster_dict C10wCd).nodes, n ∈ C10wCd.nodes :=
  C10_init_sorts_nodes C10wCd
end SpuModel
